import Mathlib

/-!
Verification of the neighbourhood-processing module
(`improver/nbhood.py`, class `BasicNeighbourhoodProcessing`).

The shallow embedding models:
* cube data as rational-valued frames (a cell is `Option ℚ`, `none`
  standing for a NaN float);
* `__init__` as `nbInit` (Python `len` on a float raises `TypeError`,
  mirrored by `pyLen`);
* `_get_grid_x_y_kernel_ranges` as `getGridXYKernelRanges` (Python
  `int()` truncation mirrored by `pyInt`);
* the kernel construction of `_apply_kernel_for_smoothing` as
  `kernelValue` (open-grid view) and `kernelShape` (array extents);
* `scipy.ndimage.filters.correlate` with `mode='nearest'` as
  `smoothedAt` (index clamping via `clampIdx`);
* `numpy.interp` as `npInterp` (piecewise-linear, clamped);
* `_find_required_lead_times` and `process` as `findRequiredLeadTimes`
  and `process`; the former calls `convert_units` on the cube's own
  time-like coordinates (no `.copy()`), so it returns the lead times
  together with the cube carrying the converted coordinates
  (`TimeCoord`, `convertToHours`).
-/

namespace Improver

/-- A float cell: `none` models a NaN value, `some q` a finite value. -/
abbrev PyFloat : Type := Option ℚ

/-- A 2-D slice of cube data, outer list indexed by the x axis,
inner by the y axis. -/
abbrev Frame : Type := List (List PyFloat)

/-- A time-like coordinate (`forecast_period`, `time`,
`forecast_reference_time`): its points together with its unit, recorded
as the affine map into hours (udunits time-unit conversions are linear:
`value_in_hours = scaleToHours * point + offsetHours`; a coordinate
already in hours has scale 1 and offset 0). -/
structure TimeCoord where
  points : List ℚ
  scaleToHours : ℚ
  offsetHours : ℚ
deriving DecidableEq

/-- `coord.convert_units("hours")` (resp. `"hours since 1970-01-01"`):
rescales the coordinate's points IN PLACE and sets its unit to hours.
Convertible units are assumed (the spec's input contract); the
conversion-failure branches of the source re-raise and are outside every
claim. -/
def convertToHours (tc : TimeCoord) : TimeCoord :=
  ⟨tc.points.map (fun p => tc.scaleToHours * p + tc.offsetHours), 1, 0⟩

/-- The cube model: spatial coordinate point sequences already in metres
(faithful because `_get_grid_x_y_kernel_ranges` converts units on a
`.copy()` of those coords, so they are never mutated), time-like
coordinates carrying their unit (they ARE mutated by
`_find_required_lead_times`, which calls `convert_units` without
`.copy()`), and the data array given as its slices over time (a cube
without a time dimension has a single frame).  Kernel extents are 1 on
non-spatial axes, so correlating the whole array equals correlating each
time slice independently. -/
structure Cube where
  xPoints : List ℚ
  yPoints : List ℚ
  realizationPoints : Option (List ℚ)
  forecastPeriod : Option TimeCoord
  timePoints : Option TimeCoord
  refTimePoints : Option TimeCoord
  frames : List Frame
deriving DecidableEq

/-- Python exceptions raised by the constructor. -/
inductive PyErr where
  | valueError (msg : String)
  | typeError (msg : String)
deriving DecidableEq

/-- The state of a constructed `BasicNeighbourhoodProcessing` instance. -/
structure NBConfig where
  radiiInKm : Sum ℚ (List ℚ)
  leadTimes : Option (List ℚ)
  unweightedMode : Bool
deriving DecidableEq

/-- Python `len()` applied to the `radii_in_km` argument: lists report
their length, a float raises `TypeError`. -/
def pyLen : Sum ℚ (List ℚ) → Except PyErr Nat
  | .inl _ => .error (.typeError "object of type float has no len()")
  | .inr l => .ok l.length

/-- The constructor's length-mismatch message. -/
def lengthMismatchMsg : String :=
  "There is a mismatch in the number of radii and the number of lead times. Unable to continue due to mismatch."

/-- `BasicNeighbourhoodProcessing.__init__`: store the radii (a list is
mapped through `float`, a scalar is converted to `float`; both identity
here), and when lead times are given compare `len(radii_in_km)` with
`len(lead_times)`. -/
def nbInit (radiiInKm : Sum ℚ (List ℚ)) (leadTimes : Option (List ℚ))
    (unweightedMode : Bool) : Except PyErr NBConfig :=
  match leadTimes with
  | none => .ok ⟨radiiInKm, none, unweightedMode⟩
  | some lts => do
    let n ← pyLen radiiInKm
    if n ≠ lts.length then
      .error (.valueError lengthMismatchMsg)
    else
      .ok ⟨radiiInKm, some lts, unweightedMode⟩

/-- Python `int()` on a rational value: truncation toward zero. -/
def pyInt (q : ℚ) : ℤ :=
  if 0 ≤ q then ⌊q⌋ else -⌊-q⌋

/-- `MAX_KERNEL_CELL_RADIUS`: max extent of kernel in grid cells. -/
def MAX_KERNEL_CELL_RADIUS : ℤ := 500

/-- Error message when the resolved cell extent is zero. -/
def zeroExtentMsg (r : ℚ) : String :=
  "Neighbourhood processing radius of " ++ toString r ++ " km gives zero cell extent"

/-- Error message when the resolved cell extent is negative. -/
def negativeExtentMsg (r : ℚ) : String :=
  "Neighbourhood processing radius of " ++ toString r ++ " km gives a negative cell extent"

/-- Error message when the resolved cell extent exceeds the cap. -/
def exceedsMaxMsg (r : ℚ) : String :=
  "Neighbourhood processing radius of " ++ toString r ++ " km exceeds maximum grid cell extent"

/-- `_get_grid_x_y_kernel_ranges`: spacing is the first difference of
each spatial coordinate's points (in metres); the cell extent per axis is
`int(radius_in_km * 1000 / abs(spacing))`; extents of zero, negative
extents, and extents above `MAX_KERNEL_CELL_RADIUS` raise.  Fewer than
two points on a spatial axis is an out-of-bounds index access. -/
def getGridXYKernelRanges (c : Cube) (radiusInKm : ℚ) : Except String (ℤ × ℤ) :=
  match c.xPoints, c.yPoints with
  | x0 :: x1 :: _, y0 :: y1 :: _ =>
    let dNorthMetres := y1 - y0
    let dEastMetres := x1 - x0
    let gridCellsY := pyInt (radiusInKm * 1000 / |dNorthMetres|)
    let gridCellsX := pyInt (radiusInKm * 1000 / |dEastMetres|)
    if gridCellsX = 0 ∨ gridCellsY = 0 then
      .error (zeroExtentMsg radiusInKm)
    else if gridCellsX < 0 ∨ gridCellsY < 0 then
      .error (negativeExtentMsg radiusInKm)
    else if MAX_KERNEL_CELL_RADIUS < gridCellsX ∨ MAX_KERNEL_CELL_RADIUS < gridCellsY then
      .error (exceedsMaxMsg radiusInKm)
    else
      .ok (gridCellsX, gridCellsY)
  | _, _ => .error "IndexError: index 1 is out of bounds"

/-- The `fullranges` vector of `_apply_kernel_for_smoothing`: starts as
zeros of length `ndim` and receives `ranges[i]` at position `axes[i]`
for `i = 0, 1` in order (a later write wins). -/
def fullrangesAt (axes : Fin 2 → ℕ) (ranges : Fin 2 → ℕ) (a : ℕ) : ℕ :=
  if a = axes 1 then ranges 1
  else if a = axes 0 then ranges 0
  else 0

/-- The shape of the kernel array: extent `1 + 2 * fullranges[a]` along
each data axis `a`. -/
def kernelShape (ndim : ℕ) (axes : Fin 2 → ℕ) (ranges : Fin 2 → ℕ) : List ℕ :=
  (List.range ndim).map (fun a => 1 + 2 * fullrangesAt axes ranges a)

/-- The kernel cell value at open-grid coordinates `(i, j)`,
`i ∈ [-rx, rx]`, `j ∈ [-ry, ry]`.  Unweighted mode starts from an array
of ones and zeroes cells with `i^2 + j^2 > rx * ry`; weighted mode
assigns `(rx * ry - (i^2 + j^2)) / (rx * ry)` and zeroes cells whose
value is negative. -/
def kernelValue (rx ry : ℕ) (unweightedMode : Bool) (i j : ℤ) : ℚ :=
  if unweightedMode then
    if (i : ℚ) ^ 2 + (j : ℚ) ^ 2 > (rx : ℚ) * (ry : ℚ) then 0 else 1
  else if ((rx : ℚ) * (ry : ℚ) - ((i : ℚ) ^ 2 + (j : ℚ) ^ 2)) / ((rx : ℚ) * (ry : ℚ)) < 0 then 0
  else ((rx : ℚ) * (ry : ℚ) - ((i : ℚ) ^ 2 + (j : ℚ) ^ 2)) / ((rx : ℚ) * (ry : ℚ))

/-- `np.sum(kernel)`: non-spatial axes have extent 1, so this is the sum
over the open-grid coordinates. -/
def kernelSum (rx ry : ℕ) (unweightedMode : Bool) : ℚ :=
  ∑ i ∈ Finset.Icc (-(rx : ℤ)) (rx : ℤ), ∑ j ∈ Finset.Icc (-(ry : ℤ)) (ry : ℤ),
    kernelValue rx ry unweightedMode i j

/-- Index clamping of `scipy.ndimage.correlate` with `mode='nearest'`:
reads beyond the array edge use the nearest in-bounds index. -/
def clampIdx (n : ℕ) (i : ℤ) : ℤ :=
  min (max i 0) ((n : ℤ) - 1)

/-- One output cell of
`correlate(data, kernel, mode='nearest') / np.sum(kernel)` on an
`nx × ny` slice whose values are given by `data`. -/
def smoothedAt (rx ry : ℕ) (unweightedMode : Bool) (nx ny : ℕ)
    (data : ℤ → ℤ → ℚ) (p q : ℤ) : ℚ :=
  (∑ i ∈ Finset.Icc (-(rx : ℤ)) (rx : ℤ), ∑ j ∈ Finset.Icc (-(ry : ℤ)) (ry : ℤ),
      kernelValue rx ry unweightedMode i j *
        data (clampIdx nx (p + i)) (clampIdx ny (q + j))) /
    kernelSum rx ry unweightedMode

/-- Cell lookup in a frame (NaN cells read as 0; `process` only smooths
after its NaN gate, so no `none` cell is ever read). -/
def frameGet (fr : Frame) (i j : ℤ) : ℚ :=
  ((fr.getD i.toNat []).getD j.toNat none).getD 0

/-- `_apply_kernel_for_smoothing` restricted to one time slice: replace
every cell by the normalized correlation of the kernel with the data. -/
def applyKernelFrame (rx ry : ℕ) (unweightedMode : Bool) (fr : Frame) : Frame :=
  let nx := fr.length
  let ny := (fr.headD []).length
  (List.range nx).map (fun p =>
    (List.range ny).map (fun q =>
      some (smoothedAt rx ry unweightedMode nx ny (frameGet fr) (Int.ofNat p) (Int.ofNat q))))

/-- `numpy.interp x xp fp`: piecewise-linear interpolation through the
points `zip xp fp`, clamped to the boundary value outside the range of
`xp` (assumed increasing). -/
def npInterp (x : ℚ) : List ℚ → List ℚ → ℚ
  | x0 :: x1 :: xs, f0 :: f1 :: fs =>
    if x ≤ x0 then f0
    else if x ≤ x1 then f0 + (f1 - f0) * (x - x0) / (x1 - x0)
    else npInterp x (x1 :: xs) (f1 :: fs)
  | [_], [f0] => f0
  | _, _ => 0

/-- Numpy elementwise subtraction of two point arrays, broadcasting a
length-1 operand; `none` when the shapes do not broadcast. -/
def npSub (a b : List ℚ) : Option (List ℚ) :=
  if b.length = 1 then some (a.map (fun x => x - b.headD 0))
  else if a.length = 1 then some (b.map (fun y => a.headD 0 - y))
  else if a.length = b.length then some (List.zipWith (fun x y => x - y) a b)
  else none

/-- Message of `_find_required_lead_times` when no lead-time source
exists (the real message interpolates the printed cube). -/
def leadTimesNotFoundMsg : String :=
  "The forecast period coordinate is not available within the cube. The time coordinate and forecast_reference_time coordinate were also not available for calculating the forecast_period."

/-- `_find_required_lead_times`: prefer the `forecast_period` coordinate,
converting it to hours; otherwise convert `time` and
`forecast_reference_time` and use their difference; otherwise raise a
not-found error.  The `convert_units` calls act on the cube's own
coordinates (no `.copy()`), so the returned cube carries the converted —
mutated — coordinates alongside the lead times. -/
def findRequiredLeadTimes (c : Cube) : Except String (List ℚ × Cube) :=
  match c.forecastPeriod with
  | some fp =>
    .ok ((convertToHours fp).points, { c with forecastPeriod := some (convertToHours fp) })
  | none =>
    match c.timePoints, c.refTimePoints with
    | some t, some frt =>
      match npSub (convertToHours t).points (convertToHours frt).points with
      | some lead =>
        .ok (lead, { c with timePoints := some (convertToHours t),
                            refTimePoints := some (convertToHours frt) })
      | none => .error "ValueError: operands could not be broadcast together"
    | _, _ => .error leadTimesNotFoundMsg

/-- The constant-mode radius: `self.radii_in_km` must be a scalar for
`radius_in_km * 1000 / abs(spacing)` to be numeric; a stored list makes
that expression raise. -/
def asFloatRadius : Sum ℚ (List ℚ) → Except String ℚ
  | .inl r => .ok r
  | .inr _ => .error "TypeError: unsupported operand type(s) for /: 'list' and 'float'"

/-- The schedule-mode radius list: `np.interp` needs an array-like `fp`;
a scalar raises. -/
def asListRadii : Sum ℚ (List ℚ) → Except String (List ℚ)
  | .inl _ => .error "ValueError: object of too small depth for desired array"
  | .inr l => .ok l

/-- The per-slice radii of schedule mode:
`np.interp(required_lead_times, self.lead_times, self.radii_in_km)`,
threaded together with the cube whose time-like coordinates
`_find_required_lead_times` has converted in place. -/
def scheduleRadii (cfg : NBConfig) (lts : List ℚ) (c : Cube) :
    Except String (List ℚ × Cube) :=
  match findRequiredLeadTimes c with
  | .error e => .error e
  | .ok pr =>
    match asListRadii cfg.radiiInKm with
    | .error e => .error e
    | .ok radii => .ok (pr.1.map (fun t => npInterp t lts radii), pr.2)

/-- `np.isnan(cube.data).any()`. -/
def hasNaN (c : Cube) : Bool :=
  c.frames.any (fun fr => fr.any (fun row => row.any (fun v => v = none)))

/-- The realization gate message. -/
def realizationsMsg : String := "Does not operate across realizations."

/-- The NaN gate message. -/
def nanMsg : String := "Error: NaN detected in input cube data"

/-- The loop body of schedule mode: for each time slice paired with its
interpolated radius, resolve the kernel ranges and smooth the slice. -/
def smoothSlices (cfg : NBConfig) (c : Cube) : List (Frame × ℚ) → Except String (List Frame)
  | [] => .ok []
  | (fr, radiusInKm) :: rest =>
    match getGridXYKernelRanges c radiusInKm with
    | .error e => .error e
    | .ok ranges =>
      match smoothSlices cfg c rest with
      | .error e => .error e
      | .ok tail =>
        .ok (applyKernelFrame ranges.1.toNat ranges.2.toNat cfg.unweightedMode fr :: tail)

/-- Modelled from the spec: `concatenate_cubes` (in
`improver.ensemble_calibration.ensemble_calibration_utilities`, outside
the sources given here) together with `iris.util.new_axis` reassembles
the smoothed time slices, in the existing slice order, into one cube with
the time dimension restored and all other coordinate metadata kept. -/
def reassembleSlices (c : Cube) (smoothed : List Frame) : Cube :=
  { c with frames := smoothed }

/-- The body of `process` after the realization check. -/
def processAfterRealizationGate (cfg : NBConfig) (c : Cube) : Except String Cube :=
  if hasNaN c then .error nanMsg
  else
    match cfg.leadTimes with
    | none =>
      match asFloatRadius cfg.radiiInKm with
      | .error e => .error e
      | .ok radiiInKm =>
        match getGridXYKernelRanges c radiiInKm with
        | .error e => .error e
        | .ok ranges =>
          .ok { c with frames :=
            c.frames.map (applyKernelFrame ranges.1.toNat ranges.2.toNat cfg.unweightedMode) }
    | some lts =>
      match scheduleRadii cfg lts c with
      | .error e => .error e
      | .ok pr =>
        match smoothSlices cfg pr.2 (pr.2.frames.zip pr.1) with
        | .error e => .error e
        | .ok smoothed => .ok (reassembleSlices pr.2 smoothed)

/-- `process`: reject cubes with more than one realization point, then
cubes with NaN data; in constant-radius mode resolve the ranges once and
smooth every slice in place; in schedule mode interpolate a radius per
time slice, smooth each slice with its own kernel, and reassemble the
slices (`iris.util.new_axis` + `concatenate_cubes`, modelled from the
spec as reassembly in the existing slice order with all coordinate
metadata kept). -/
def process (cfg : NBConfig) (c : Cube) : Except String Cube :=
  match c.realizationPoints with
  | some pts =>
    if pts.length > 1 then .error realizationsMsg else processAfterRealizationGate cfg c
  | none => processAfterRealizationGate cfg c

/-! ### Helper lemmas about the kernel -/

theorem kernelPos (rx ry : ℕ) (hrx : 1 ≤ rx) (hry : 1 ≤ ry) :
    (0 : ℚ) < (rx : ℚ) * (ry : ℚ) := by
  have h1 : (0 : ℚ) < (rx : ℚ) := by exact_mod_cast hrx
  have h2 : (0 : ℚ) < (ry : ℚ) := by exact_mod_cast hry
  exact mul_pos h1 h2

theorem kernelValue_nonneg (rx ry : ℕ) (uw : Bool) (i j : ℤ) :
    0 ≤ kernelValue rx ry uw i j := by
  unfold kernelValue
  cases uw
  · simp only [Bool.false_eq_true, if_false]
    split
    · exact le_refl 0
    · next h => exact le_of_not_lt h
  · simp only [if_true]
    split
    · exact le_refl 0
    · exact zero_le_one

theorem kernelValue_center (rx ry : ℕ) (uw : Bool) (hrx : 1 ≤ rx) (hry : 1 ≤ ry) :
    kernelValue rx ry uw 0 0 = 1 := by
  have hR := kernelPos rx ry hrx hry
  unfold kernelValue
  cases uw
  · simp only [Bool.false_eq_true, if_false, Int.cast_zero]
    rw [show ((0 : ℚ) ^ 2 + (0 : ℚ) ^ 2) = 0 by norm_num, sub_zero,
      div_self (ne_of_gt hR)]
    norm_num
  · simp only [if_true, Int.cast_zero]
    rw [if_neg]
    push_neg
    nlinarith

theorem zero_mem_kernelIcc (r : ℕ) : (0 : ℤ) ∈ Finset.Icc (-(r : ℤ)) (r : ℤ) := by
  rw [Finset.mem_Icc]
  constructor
  · exact neg_nonpos_of_nonneg (Int.natCast_nonneg r)
  · exact Int.natCast_nonneg r

theorem kernelSum_pos (rx ry : ℕ) (uw : Bool) (hrx : 1 ≤ rx) (hry : 1 ≤ ry) :
    0 < kernelSum rx ry uw := by
  unfold kernelSum
  apply Finset.sum_pos'
  · intro i _
    exact Finset.sum_nonneg (fun j _ => kernelValue_nonneg rx ry uw i j)
  · refine ⟨0, zero_mem_kernelIcc rx, ?_⟩
    apply Finset.sum_pos'
    · intro j _
      exact kernelValue_nonneg rx ry uw 0 j
    · refine ⟨0, zero_mem_kernelIcc ry, ?_⟩
      rw [kernelValue_center rx ry uw hrx hry]
      exact zero_lt_one

theorem clampIdx_nonneg (n : ℕ) (hn : 1 ≤ n) (i : ℤ) : 0 ≤ clampIdx n i := by
  unfold clampIdx
  apply le_min
  · exact le_max_right i 0
  · omega

theorem clampIdx_lt (n : ℕ) (hn : 1 ≤ n) (i : ℤ) : clampIdx n i < (n : ℤ) := by
  unfold clampIdx
  have h : (n : ℤ) - 1 < (n : ℤ) := by omega
  exact lt_of_le_of_lt (min_le_right _ _) h

/-- Smoothing a slice whose values are `v` at every in-bounds cell gives
`v` back at every output cell: the kernel-weighted sum of a constant is
the kernel sum times the constant, and normalization divides it out. -/
theorem smoothedAt_const (rx ry : ℕ) (uw : Bool) (nx ny : ℕ) (v : ℚ)
    (data : ℤ → ℤ → ℚ) (p q : ℤ) (hrx : 1 ≤ rx) (hry : 1 ≤ ry)
    (hnx : 1 ≤ nx) (hny : 1 ≤ ny)
    (hdata : ∀ i j : ℤ, 0 ≤ i → i < (nx : ℤ) → 0 ≤ j → j < (ny : ℤ) → data i j = v) :
    smoothedAt rx ry uw nx ny data p q = v := by
  unfold smoothedAt
  have hrw : ∀ i ∈ Finset.Icc (-(rx : ℤ)) (rx : ℤ),
      ∀ j ∈ Finset.Icc (-(ry : ℤ)) (ry : ℤ),
      kernelValue rx ry uw i j * data (clampIdx nx (p + i)) (clampIdx ny (q + j)) =
        kernelValue rx ry uw i j * v := by
    intro i _ j _
    rw [hdata _ _ (clampIdx_nonneg nx hnx _) (clampIdx_lt nx hnx _)
      (clampIdx_nonneg ny hny _) (clampIdx_lt ny hny _)]
  rw [Finset.sum_congr rfl (fun i hi => Finset.sum_congr rfl (fun j hj => hrw i hi j hj))]
  have hsum : (∑ i ∈ Finset.Icc (-(rx : ℤ)) (rx : ℤ),
      ∑ j ∈ Finset.Icc (-(ry : ℤ)) (ry : ℤ), kernelValue rx ry uw i j * v) =
      kernelSum rx ry uw * v := by
    unfold kernelSum
    rw [Finset.sum_mul]
    exact Finset.sum_congr rfl (fun i _ => (Finset.sum_mul _ _ _).symm)
  rw [hsum, mul_comm, mul_div_assoc,
    div_self (ne_of_gt (kernelSum_pos rx ry uw hrx hry)), mul_one]

theorem kernelValue_unweighted_eq_zero_iff (rx ry : ℕ) (i j : ℤ) :
    kernelValue rx ry true i j = 0 ↔ (rx : ℤ) * (ry : ℤ) < i ^ 2 + j ^ 2 := by
  have hcast : ((rx : ℚ) * (ry : ℚ) < (i : ℚ) ^ 2 + (j : ℚ) ^ 2) ↔
      ((rx : ℤ) * (ry : ℤ) < i ^ 2 + j ^ 2) := by
    constructor <;> intro h <;> exact_mod_cast h
  unfold kernelValue
  simp only [if_true]
  split
  · next h => exact iff_of_true rfl (hcast.mp h)
  · next h => exact iff_of_false one_ne_zero (fun h2 => h (hcast.mpr h2))

theorem kernelValue_weighted_eq_zero_iff (rx ry : ℕ) (hrx : 1 ≤ rx) (hry : 1 ≤ ry)
    (i j : ℤ) :
    kernelValue rx ry false i j = 0 ↔ (rx : ℤ) * (ry : ℤ) ≤ i ^ 2 + j ^ 2 := by
  have hR := kernelPos rx ry hrx hry
  have hcast : ((rx : ℚ) * (ry : ℚ) ≤ (i : ℚ) ^ 2 + (j : ℚ) ^ 2) ↔
      ((rx : ℤ) * (ry : ℤ) ≤ i ^ 2 + j ^ 2) := by
    constructor <;> intro h <;> exact_mod_cast h
  unfold kernelValue
  simp only [Bool.false_eq_true, if_false]
  split
  · next h =>
    rw [div_lt_iff hR, zero_mul, sub_neg] at h
    exact iff_of_true rfl (hcast.mp h.le)
  · next h =>
    rw [div_lt_iff hR, zero_mul, sub_neg, not_lt] at h
    rw [div_eq_zero_iff, sub_eq_zero]
    constructor
    · intro h2
      rcases h2 with h2 | h2
      · exact hcast.mp h2.le
      · exact absurd h2 (ne_of_gt hR)
    · intro h2
      exact Or.inl (le_antisymm (hcast.mpr h2) h)

theorem kernelValue_weighted_in_disc (rx ry : ℕ) (hrx : 1 ≤ rx) (hry : 1 ≤ ry)
    (i j : ℤ) (hin : i ^ 2 + j ^ 2 ≤ (rx : ℤ) * (ry : ℤ)) :
    kernelValue rx ry false i j =
      ((rx : ℚ) * (ry : ℚ) - ((i : ℚ) ^ 2 + (j : ℚ) ^ 2)) / ((rx : ℚ) * (ry : ℚ)) := by
  have hR := kernelPos rx ry hrx hry
  have hin' : (i : ℚ) ^ 2 + (j : ℚ) ^ 2 ≤ (rx : ℚ) * (ry : ℚ) := by exact_mod_cast hin
  unfold kernelValue
  simp only [Bool.false_eq_true, if_false]
  rw [if_neg]
  rw [not_lt]
  exact div_nonneg (sub_nonneg.mpr hin') hR.le

theorem kernelValue_weighted_eq (rx ry : ℕ) (i j : ℤ) :
    kernelValue rx ry false i j =
      if ((rx : ℚ) * (ry : ℚ) - ((i : ℚ) ^ 2 + (j : ℚ) ^ 2)) / ((rx : ℚ) * (ry : ℚ)) < 0 then 0
      else ((rx : ℚ) * (ry : ℚ) - ((i : ℚ) ^ 2 + (j : ℚ) ^ 2)) / ((rx : ℚ) * (ry : ℚ)) := by
  unfold kernelValue
  simp only [Bool.false_eq_true, if_false]

/-- The weighted kernel value strictly drops with the squared distance
from the centre, as long as the nearer cell still has positive weight. -/
theorem kernelValue_weighted_lt (rx ry : ℕ) (hrx : 1 ≤ rx) (hry : 1 ≤ ry)
    (i j i' j' : ℤ) (hlt : i ^ 2 + j ^ 2 < i' ^ 2 + j' ^ 2)
    (hpos : 0 < kernelValue rx ry false i j) :
    kernelValue rx ry false i' j' < kernelValue rx ry false i j := by
  have hR := kernelPos rx ry hrx hry
  have hlt' : (i : ℚ) ^ 2 + (j : ℚ) ^ 2 < (i' : ℚ) ^ 2 + (j' : ℚ) ^ 2 := by
    exact_mod_cast hlt
  have hval : kernelValue rx ry false i j =
      ((rx : ℚ) * (ry : ℚ) - ((i : ℚ) ^ 2 + (j : ℚ) ^ 2)) / ((rx : ℚ) * (ry : ℚ)) := by
    rw [kernelValue_weighted_eq] at hpos ⊢
    split at hpos
    · exact absurd hpos (lt_irrefl 0)
    · next h => exact if_neg h
  have hraw : (((rx : ℚ) * (ry : ℚ) - ((i' : ℚ) ^ 2 + (j' : ℚ) ^ 2)) / ((rx : ℚ) * (ry : ℚ))) <
      kernelValue rx ry false i j := by
    rw [hval, div_lt_div_iff hR hR]
    nlinarith
  rw [kernelValue_weighted_eq rx ry i' j']
  split
  · next h =>
    rw [hval] at hpos ⊢
    exact hpos
  · exact hraw

theorem kernelShape_getD (ndim : ℕ) (axes ranges : Fin 2 → ℕ) (a : ℕ) (ha : a < ndim) :
    (kernelShape ndim axes ranges).getD a 0 = 1 + 2 * fullrangesAt axes ranges a := by
  unfold kernelShape
  rw [List.getD_eq_getElem?_getD, List.getElem?_map, List.getElem?_range ha]
  rfl

/-! ### Claim theorems about the kernel builder -/

/-- C1 (counterexample): at ranges `(1, 1)` the weighted kernel's cell at
open-grid coordinates `(1, 0)` is zero although its squared-coordinate sum
does not exceed `range_x * range_y`, so the zero set is not given by
`sum > range_x * range_y` identically in both modes. -/
theorem C1_counterexample :
    kernelValue 1 1 false 1 0 = 0 ∧ ¬ ((1 : ℤ) * 1 < 1 ^ 2 + 0 ^ 2) := by
  constructor
  · norm_num [kernelValue]
  · decide

/-- C1 (amended): for ranges in `[1, 500]`, the kernel array has extent
`2*ranges[axis]+1` along each resolved spatial data axis and extent 1
along every other axis; a cell of the unweighted kernel is zero exactly
when `sum(coord_i^2) > range_x * range_y`, while a cell of the weighted
kernel is zero exactly when `sum(coord_i^2) ≥ range_x * range_y` (the
boundary cells with equality get weight zero only in weighted mode); in
both modes every cell with `sum(coord_i^2) > range_x * range_y` is
zero. -/
theorem C1_kernel_shape_and_zero_pattern :
    (∀ (ndim : ℕ) (axes ranges : Fin 2 → ℕ) (a : ℕ), axes 0 ≠ axes 1 → a < ndim →
      (kernelShape ndim axes ranges).getD a 0 =
        if a = axes 0 then 2 * ranges 0 + 1
        else if a = axes 1 then 2 * ranges 1 + 1
        else 1) ∧
    (∀ (rx ry : ℕ), 1 ≤ rx → rx ≤ 500 → 1 ≤ ry → ry ≤ 500 → ∀ (i j : ℤ),
      |i| ≤ (rx : ℤ) → |j| ≤ (ry : ℤ) →
      (kernelValue rx ry true i j = 0 ↔ (rx : ℤ) * (ry : ℤ) < i ^ 2 + j ^ 2) ∧
      (kernelValue rx ry false i j = 0 ↔ (rx : ℤ) * (ry : ℤ) ≤ i ^ 2 + j ^ 2) ∧
      ((rx : ℤ) * (ry : ℤ) < i ^ 2 + j ^ 2 →
        kernelValue rx ry true i j = 0 ∧ kernelValue rx ry false i j = 0)) := by
  constructor
  · intro ndim axes ranges a hne ha
    rw [kernelShape_getD ndim axes ranges a ha]
    unfold fullrangesAt
    by_cases h0 : a = axes 0
    · subst h0
      rw [if_neg hne, if_pos rfl, if_pos rfl]
      omega
    · by_cases h1 : a = axes 1
      · subst h1
        rw [if_pos rfl, if_neg h0, if_pos rfl]
        omega
      · rw [if_neg h1, if_neg h0, if_neg h0, if_neg h1]
  · intro rx ry hrx _ hry _ i j _ _
    refine ⟨kernelValue_unweighted_eq_zero_iff rx ry i j,
      kernelValue_weighted_eq_zero_iff rx ry hrx hry i j, fun hout => ?_⟩
    exact ⟨(kernelValue_unweighted_eq_zero_iff rx ry i j).mpr hout,
      (kernelValue_weighted_eq_zero_iff rx ry hrx hry i j).mpr hout.le⟩

/-- C6: kernel weights are non-negative in both modes; in weighted mode an
in-disc cell's weight is `(range_x*range_y - sum(coord_i^2)) /
(range_x*range_y)` (negative raw weights being masked to zero), and the
weighted weight strictly decreases moving outward from the centre along any
ray while it is still positive, reaching zero at or after the disc
boundary. -/
theorem C6_weighted_kernel_weights :
    (∀ (rx ry : ℕ) (uw : Bool) (i j : ℤ), 0 ≤ kernelValue rx ry uw i j) ∧
    (∀ (rx ry : ℕ) (i j : ℤ), 1 ≤ rx → 1 ≤ ry → i ^ 2 + j ^ 2 ≤ (rx : ℤ) * (ry : ℤ) →
      kernelValue rx ry false i j =
        ((rx : ℚ) * (ry : ℚ) - ((i : ℚ) ^ 2 + (j : ℚ) ^ 2)) / ((rx : ℚ) * (ry : ℚ))) ∧
    (∀ (rx ry : ℕ) (dx dy : ℤ) (t : ℕ), 1 ≤ rx → 1 ≤ ry → ¬(dx = 0 ∧ dy = 0) →
      |((t : ℤ) + 1) * dx| ≤ (rx : ℤ) → |((t : ℤ) + 1) * dy| ≤ (ry : ℤ) →
      0 < kernelValue rx ry false ((t : ℤ) * dx) ((t : ℤ) * dy) →
      kernelValue rx ry false (((t : ℤ) + 1) * dx) (((t : ℤ) + 1) * dy) <
        kernelValue rx ry false ((t : ℤ) * dx) ((t : ℤ) * dy)) := by
  refine ⟨kernelValue_nonneg, fun rx ry i j hrx hry hin =>
    kernelValue_weighted_in_disc rx ry hrx hry i j hin, ?_⟩
  intro rx ry dx dy t hrx hry hdir _ _ hpos
  apply kernelValue_weighted_lt rx ry hrx hry _ _ _ _ _ hpos
  have hs : 0 < dx ^ 2 + dy ^ 2 := by
    rcases not_and_or.mp hdir with hdx | hdy
    · have h1 : 0 < dx ^ 2 := lt_of_le_of_ne (sq_nonneg dx) (Ne.symm (pow_ne_zero 2 hdx))
      have h2 : 0 ≤ dy ^ 2 := sq_nonneg dy
      omega
    · have h1 : 0 < dy ^ 2 := lt_of_le_of_ne (sq_nonneg dy) (Ne.symm (pow_ne_zero 2 hdy))
      have h2 : 0 ≤ dx ^ 2 := sq_nonneg dx
      omega
  have ht : (0 : ℤ) ≤ (t : ℤ) := Int.natCast_nonneg t
  nlinarith [mul_pos (show (0 : ℤ) < 2 * (t : ℤ) + 1 by omega) hs]

/-- C7: the kernel value at open-grid coordinates `(i, j)` is unchanged by
negating either coordinate or both, for every valid range pair and in both
weighted and unweighted modes. -/
theorem C7_kernel_symmetry (rx ry : ℕ) (uw : Bool) (i j : ℤ)
    (hrx1 : 1 ≤ rx) (hrx2 : rx ≤ 500) (hry1 : 1 ≤ ry) (hry2 : ry ≤ 500)
    (hi : |i| ≤ (rx : ℤ)) (hj : |j| ≤ (ry : ℤ)) :
    kernelValue rx ry uw (-i) j = kernelValue rx ry uw i j ∧
    kernelValue rx ry uw i (-j) = kernelValue rx ry uw i j ∧
    kernelValue rx ry uw (-i) (-j) = kernelValue rx ry uw i j := by
  unfold kernelValue
  push_cast
  rw [neg_pow (i : ℚ) 2, neg_pow (j : ℚ) 2]
  norm_num

/-- Witness for C7 at ranges `(1, 1)`, unweighted, cell `(1, 0)`. -/
theorem C7_witness :
    kernelValue 1 1 true (-1) 0 = kernelValue 1 1 true 1 0 ∧
    kernelValue 1 1 true 1 (-0) = kernelValue 1 1 true 1 0 ∧
    kernelValue 1 1 true (-1) (-0) = kernelValue 1 1 true 1 0 :=
  C7_kernel_symmetry 1 1 true 1 0 (by decide) (by decide) (by decide) (by decide)
    (by decide) (by decide)

/-! ### A constant field reproduced by smoothing -/

theorem frameGet_replicate (m n : ℕ) (v : ℚ) (i j : ℤ)
    (hi0 : 0 ≤ i) (hi : i < (m : ℤ)) (hj0 : 0 ≤ j) (hj : j < (n : ℤ)) :
    frameGet (List.replicate m (List.replicate n (some v))) i j = v := by
  unfold frameGet
  have hi' : i.toNat < m := by omega
  have hj' : j.toNat < n := by omega
  simp [List.getD_eq_getElem?_getD, List.getElem?_replicate, hi', hj']

theorem headD_replicate (m : ℕ) (hm : 1 ≤ m) (row : List PyFloat) :
    (List.replicate m row).headD [] = row := by
  cases m with
  | zero => omega
  | succ k => rw [List.replicate_succ]; rfl

/-- Smoothing a constant frame of `v`s reproduces it exactly. -/
theorem applyKernelFrame_const (rx ry : ℕ) (uw : Bool) (m n : ℕ) (v : ℚ)
    (hrx : 1 ≤ rx) (hry : 1 ≤ ry) (hm : 1 ≤ m) (hn : 1 ≤ n) :
    applyKernelFrame rx ry uw (List.replicate m (List.replicate n (some v))) =
      List.replicate m (List.replicate n (some v)) := by
  unfold applyKernelFrame
  simp only [List.length_replicate, headD_replicate m hm]
  refine List.eq_replicate.mpr ⟨by simp, ?_⟩
  intro row hrow
  rw [List.mem_map] at hrow
  obtain ⟨p, _, rfl⟩ := hrow
  refine List.eq_replicate.mpr ⟨by simp, ?_⟩
  intro cell hcell
  rw [List.mem_map] at hcell
  obtain ⟨q, _, rfl⟩ := hcell
  rw [smoothedAt_const rx ry uw m n v _ _ _ hrx hry hm hn
    (fun i j h1 h2 h3 h4 => frameGet_replicate m n v i j h1 h2 h3 h4)]

/-- A flat 5×5 field of ones on a 1 km grid (spatial points in metres). -/
def flatCube : Cube :=
  { xPoints := [0, 1000, 2000, 3000, 4000]
    yPoints := [0, 1000, 2000, 3000, 4000]
    realizationPoints := none
    forecastPeriod := none
    timePoints := none
    refTimePoints := none
    frames := [List.replicate 5 (List.replicate 5 (some 1))] }

theorem ranges_flatCube : getGridXYKernelRanges flatCube 1 = .ok (1, 1) := by
  norm_num [getGridXYKernelRanges, flatCube, pyInt, MAX_KERNEL_CELL_RADIUS]

theorem process_flatCube : process ⟨Sum.inl 1, none, true⟩ flatCube = .ok flatCube := by
  have h2 : process ⟨Sum.inl 1, none, true⟩ flatCube
      = (match getGridXYKernelRanges flatCube 1 with
        | .error e => .error e
        | .ok ranges =>
          Except.ok { flatCube with frames := [applyKernelFrame ranges.1.toNat ranges.2.toNat
            true (List.replicate 5 (List.replicate 5 (some (1 : ℚ))))] }) := rfl
  rw [h2, ranges_flatCube]
  show Except.ok { flatCube with frames := [applyKernelFrame 1 1 true
    (List.replicate 5 (List.replicate 5 (some (1 : ℚ))))] } = Except.ok flatCube
  rw [applyKernelFrame_const 1 1 true 5 5 1 (by decide) (by decide) (by decide) (by decide)]
  rfl

/-- C5: smoothing (correlation with edge replication, divided by the kernel
sum) maps a field that is constantly `v` on the grid to `v` at every
output cell — interior cells in particular — and, end-to-end, `process` on
a flat 5×5 grid of ones with 1 km spacing, radius 1 km, unweighted mode,
returns the field of ones unchanged. -/
theorem C5_normalization_constant_field :
    (∀ (rx ry : ℕ) (uw : Bool) (nx ny : ℕ) (v : ℚ) (data : ℤ → ℤ → ℚ) (p q : ℤ),
      1 ≤ rx → 1 ≤ ry → 1 ≤ nx → 1 ≤ ny →
      (∀ i j : ℤ, 0 ≤ i → i < (nx : ℤ) → 0 ≤ j → j < (ny : ℤ) → data i j = v) →
      smoothedAt rx ry uw nx ny data p q = v) ∧
    process ⟨Sum.inl 1, none, true⟩ flatCube = .ok flatCube :=
  ⟨fun rx ry uw nx ny v data p q h1 h2 h3 h4 h5 =>
    smoothedAt_const rx ry uw nx ny v data p q h1 h2 h3 h4 h5, process_flatCube⟩

/-! ### The radius resolver -/

/-- Python truncation agrees with the floor once the result is positive. -/
theorem pyInt_pos_eq_floor (q : ℚ) (h : 0 < pyInt q) : pyInt q = ⌊q⌋ := by
  unfold pyInt at h ⊢
  split at h
  · next h0 => rw [if_pos h0]
  · next h0 =>
    push_neg at h0
    have hf : (0 : ℤ) ≤ ⌊-q⌋ := Int.floor_nonneg.mpr (by linarith)
    omega

/-- The resolver on a cube whose spatial axes expose their first two
points, written as one chain of guards. -/
theorem getGridXYKernelRanges_eq (c : Cube) (radiusInKm x0 x1 y0 y1 : ℚ)
    (xs ys : List ℚ) (hx : c.xPoints = x0 :: x1 :: xs) (hy : c.yPoints = y0 :: y1 :: ys) :
    getGridXYKernelRanges c radiusInKm =
      (if pyInt (radiusInKm * 1000 / |x1 - x0|) = 0 ∨
          pyInt (radiusInKm * 1000 / |y1 - y0|) = 0 then
        .error (zeroExtentMsg radiusInKm)
      else if pyInt (radiusInKm * 1000 / |x1 - x0|) < 0 ∨
          pyInt (radiusInKm * 1000 / |y1 - y0|) < 0 then
        .error (negativeExtentMsg radiusInKm)
      else if MAX_KERNEL_CELL_RADIUS < pyInt (radiusInKm * 1000 / |x1 - x0|) ∨
          MAX_KERNEL_CELL_RADIUS < pyInt (radiusInKm * 1000 / |y1 - y0|) then
        .error (exceedsMaxMsg radiusInKm)
      else
        .ok (pyInt (radiusInKm * 1000 / |x1 - x0|), pyInt (radiusInKm * 1000 / |y1 - y0|))) := by
  unfold getGridXYKernelRanges
  rw [hx, hy]

/-- C2: whenever the resolver returns extents, they are
`⌊radius_km * 1000 / |first-difference of the axis points|⌋`, computed
independently for each of the two spatial axes; the truncation used by
the code agrees with the floor on every successful run, and it does
truncate rather than round (1.9 km on a 1 km grid still gives extent 1). -/
theorem C2_radius_resolution :
    (∀ (c : Cube) (radiusInKm x0 x1 y0 y1 : ℚ) (xs ys : List ℚ) (gx gy : ℤ),
      c.xPoints = x0 :: x1 :: xs → c.yPoints = y0 :: y1 :: ys →
      getGridXYKernelRanges c radiusInKm = .ok (gx, gy) →
      gx = ⌊radiusInKm * 1000 / |x1 - x0|⌋ ∧ gy = ⌊radiusInKm * 1000 / |y1 - y0|⌋) ∧
    getGridXYKernelRanges flatCube (19/10) = .ok (1, 1) := by
  constructor
  · intro c radiusInKm x0 x1 y0 y1 xs ys gx gy hx hy hok
    rw [getGridXYKernelRanges_eq c radiusInKm x0 x1 y0 y1 xs ys hx hy] at hok
    set ax : ℤ := pyInt (radiusInKm * 1000 / |x1 - x0|) with hax
    set ay : ℤ := pyInt (radiusInKm * 1000 / |y1 - y0|) with hay
    by_cases h1 : ax = 0 ∨ ay = 0
    · rw [if_pos h1] at hok
      exact Except.noConfusion hok
    rw [if_neg h1] at hok
    by_cases h2 : ax < 0 ∨ ay < 0
    · rw [if_pos h2] at hok
      exact Except.noConfusion hok
    rw [if_neg h2] at hok
    by_cases h3 : MAX_KERNEL_CELL_RADIUS < ax ∨ MAX_KERNEL_CELL_RADIUS < ay
    · rw [if_pos h3] at hok
      exact Except.noConfusion hok
    rw [if_neg h3] at hok
    push_neg at h1 h2
    rw [Except.ok.injEq, Prod.mk.injEq] at hok
    obtain ⟨hgx, hgy⟩ := hok
    have hposx : 0 < ax := lt_of_le_of_ne h2.1 (Ne.symm h1.1)
    have hposy : 0 < ay := lt_of_le_of_ne h2.2 (Ne.symm h1.2)
    constructor
    · rw [← hgx, hax]
      exact pyInt_pos_eq_floor _ hposx
    · rw [← hgy, hay]
      exact pyInt_pos_eq_floor _ hposy
  · norm_num [getGridXYKernelRanges, flatCube, pyInt, MAX_KERNEL_CELL_RADIUS]

/-- A 2×2 grid with 1 km spacing, used to exercise the radius bounds. -/
def grid1000 : Cube :=
  { xPoints := [0, 1000]
    yPoints := [0, 1000]
    realizationPoints := none
    forecastPeriod := none
    timePoints := none
    refTimePoints := none
    frames := [] }

/-- C3: a radius whose truncated half-width is zero on either spatial axis
raises, a negative half-width raises, half-widths of exactly 500 on both
axes succeed, and a half-width above 500 on either axis raises; each error
message carries the offending radius value.  On a 1 km grid: radius 0.5 km
raises the zero-extent error, −1 km the negative-extent error, 500 km
succeeds with extents (500, 500), and 501 km raises the cap error. -/
theorem C3_radius_extent_bounds :
    (∀ (c : Cube) (radiusInKm x0 x1 y0 y1 : ℚ) (xs ys : List ℚ),
      c.xPoints = x0 :: x1 :: xs → c.yPoints = y0 :: y1 :: ys →
      pyInt (radiusInKm * 1000 / |x1 - x0|) = 0 ∨ pyInt (radiusInKm * 1000 / |y1 - y0|) = 0 →
      ∃ s1 s2, getGridXYKernelRanges c radiusInKm = .error (s1 ++ toString radiusInKm ++ s2)) ∧
    (∀ (c : Cube) (radiusInKm x0 x1 y0 y1 : ℚ) (xs ys : List ℚ),
      c.xPoints = x0 :: x1 :: xs → c.yPoints = y0 :: y1 :: ys →
      pyInt (radiusInKm * 1000 / |x1 - x0|) < 0 ∨ pyInt (radiusInKm * 1000 / |y1 - y0|) < 0 →
      ∃ s1 s2, getGridXYKernelRanges c radiusInKm = .error (s1 ++ toString radiusInKm ++ s2)) ∧
    (∀ (c : Cube) (radiusInKm x0 x1 y0 y1 : ℚ) (xs ys : List ℚ),
      c.xPoints = x0 :: x1 :: xs → c.yPoints = y0 :: y1 :: ys →
      pyInt (radiusInKm * 1000 / |x1 - x0|) = 500 → pyInt (radiusInKm * 1000 / |y1 - y0|) = 500 →
      getGridXYKernelRanges c radiusInKm = .ok (500, 500)) ∧
    (∀ (c : Cube) (radiusInKm x0 x1 y0 y1 : ℚ) (xs ys : List ℚ),
      c.xPoints = x0 :: x1 :: xs → c.yPoints = y0 :: y1 :: ys →
      500 < pyInt (radiusInKm * 1000 / |x1 - x0|) ∨ 500 < pyInt (radiusInKm * 1000 / |y1 - y0|) →
      ∃ s1 s2, getGridXYKernelRanges c radiusInKm = .error (s1 ++ toString radiusInKm ++ s2)) ∧
    getGridXYKernelRanges grid1000 (1/2) = .error (zeroExtentMsg (1/2)) ∧
    getGridXYKernelRanges grid1000 (-1) = .error (negativeExtentMsg (-1)) ∧
    getGridXYKernelRanges grid1000 500 = .ok (500, 500) ∧
    getGridXYKernelRanges grid1000 501 = .error (exceedsMaxMsg 501) := by
  refine ⟨?_, ?_, ?_, ?_, ?_, ?_, ?_, ?_⟩
  · intro c radiusInKm x0 x1 y0 y1 xs ys hx hy h1
    rw [getGridXYKernelRanges_eq c radiusInKm x0 x1 y0 y1 xs ys hx hy, if_pos h1]
    exact ⟨"Neighbourhood processing radius of ", " km gives zero cell extent", rfl⟩
  · intro c radiusInKm x0 x1 y0 y1 xs ys hx hy h2
    rw [getGridXYKernelRanges_eq c radiusInKm x0 x1 y0 y1 xs ys hx hy]
    by_cases h1 : pyInt (radiusInKm * 1000 / |x1 - x0|) = 0 ∨
        pyInt (radiusInKm * 1000 / |y1 - y0|) = 0
    · rw [if_pos h1]
      exact ⟨"Neighbourhood processing radius of ", " km gives zero cell extent", rfl⟩
    · rw [if_neg h1, if_pos h2]
      exact ⟨"Neighbourhood processing radius of ", " km gives a negative cell extent", rfl⟩
  · intro c radiusInKm x0 x1 y0 y1 xs ys hx hy hgx hgy
    rw [getGridXYKernelRanges_eq c radiusInKm x0 x1 y0 y1 xs ys hx hy, hgx, hgy]
    norm_num [MAX_KERNEL_CELL_RADIUS]
  · intro c radiusInKm x0 x1 y0 y1 xs ys hx hy h3
    rw [getGridXYKernelRanges_eq c radiusInKm x0 x1 y0 y1 xs ys hx hy]
    by_cases h1 : pyInt (radiusInKm * 1000 / |x1 - x0|) = 0 ∨
        pyInt (radiusInKm * 1000 / |y1 - y0|) = 0
    · rw [if_pos h1]
      exact ⟨"Neighbourhood processing radius of ", " km gives zero cell extent", rfl⟩
    · rw [if_neg h1]
      by_cases h2 : pyInt (radiusInKm * 1000 / |x1 - x0|) < 0 ∨
          pyInt (radiusInKm * 1000 / |y1 - y0|) < 0
      · rw [if_pos h2]
        exact ⟨"Neighbourhood processing radius of ", " km gives a negative cell extent", rfl⟩
      · rw [if_neg h2, if_pos (show MAX_KERNEL_CELL_RADIUS < _ ∨ MAX_KERNEL_CELL_RADIUS < _
          from h3)]
        exact ⟨"Neighbourhood processing radius of ", " km exceeds maximum grid cell extent", rfl⟩
  · norm_num [getGridXYKernelRanges, grid1000, pyInt, MAX_KERNEL_CELL_RADIUS]
  · norm_num [getGridXYKernelRanges, grid1000, pyInt, MAX_KERNEL_CELL_RADIUS]
  · norm_num [getGridXYKernelRanges, grid1000, pyInt, MAX_KERNEL_CELL_RADIUS]
  · norm_num [getGridXYKernelRanges, grid1000, pyInt, MAX_KERNEL_CELL_RADIUS]

/-! ### Lead-time interpolation -/

theorem npInterp_le_head (x t0 r0 : ℚ) (ts rs : List ℚ)
    (hlen : ts.length = rs.length) (hx : x ≤ t0) :
    npInterp x (t0 :: ts) (r0 :: rs) = r0 := by
  cases ts with
  | nil =>
    cases rs with
    | nil => rfl
    | cons r1 rs' => simp at hlen
  | cons t1 ts' =>
    cases rs with
    | nil => simp at hlen
    | cons r1 rs' =>
      simp only [npInterp]
      rw [if_pos hx]

theorem npInterp_ge_last (x : ℚ) (ts : List ℚ) :
    ∀ (rs : List ℚ), ts.Pairwise (· < ·) → ts.length = rs.length → ts ≠ [] →
      (∀ t ∈ ts, t ≤ x) → npInterp x ts rs = rs.getLastD 0 := by
  induction ts with
  | nil => intro rs _ _ hne _; exact absurd rfl hne
  | cons t0 ts' IH =>
    intro rs hpw hlen _ hall
    cases rs with
    | nil => simp at hlen
    | cons r0 rs' =>
      cases ts' with
      | nil =>
        cases rs' with
        | nil => rfl
        | cons r1 rs'' => simp at hlen
      | cons t1 ts'' =>
        cases rs' with
        | nil => simp at hlen
        | cons r1 rs'' =>
          have hpw1 := List.pairwise_cons.mp hpw
          have ht01 : t0 < t1 := hpw1.1 t1 (by simp)
          have ht1x : t1 ≤ x := hall t1 (by simp)
          simp only [npInterp]
          rw [if_neg (by linarith)]
          by_cases hx1 : x ≤ t1
          · have hx_eq : x = t1 := le_antisymm hx1 ht1x
            cases ts'' with
            | nil =>
              cases rs'' with
              | nil =>
                rw [if_pos hx1, hx_eq]
                have hne : t1 - t0 ≠ 0 := sub_ne_zero.mpr (ne_of_gt ht01)
                rw [mul_div_assoc, div_self hne, mul_one]
                simp [List.getLastD]
              | cons r2 rs''' => simp at hlen
            | cons t2 ts''' =>
              have ht12 : t1 < t2 := (List.pairwise_cons.mp hpw1.2).1 t2 (by simp)
              have ht2x : t2 ≤ x := hall t2 (by simp)
              linarith
          · rw [if_neg hx1]
            have := IH (r1 :: rs'') hpw1.2 (by simpa using hlen) (by simp)
              (fun t ht => hall t (by simp [ht]))
            rw [this]
            simp [List.getLastD_cons]

theorem npInterp_segment (x : ℚ) :
    ∀ (k : ℕ) (T R : List ℚ) (a b fa fb : ℚ),
      T.Pairwise (· < ·) → T.length = R.length →
      T[k]? = some a → T[k + 1]? = some b →
      R[k]? = some fa → R[k + 1]? = some fb →
      a ≤ x → x < b →
      npInterp x T R = fa + (fb - fa) * (x - a) / (b - a) := by
  intro k
  induction k with
  | zero =>
    intro T R a b fa fb hpw hlen hTa hTb hRa hRb hax hxb
    cases T with
    | nil => simp at hTa
    | cons t0 T' =>
      cases T' with
      | nil => simp at hTb
      | cons t1 T'' =>
        cases R with
        | nil => simp at hlen
        | cons r0 R' =>
          cases R' with
          | nil => simp at hlen
          | cons r1 R'' =>
            rw [List.getElem?_cons_zero, Option.some.injEq] at hTa hRa
            rw [List.getElem?_cons_succ, List.getElem?_cons_zero, Option.some.injEq] at hTb hRb
            subst hTa hTb hRa hRb
            by_cases hx0 : x ≤ t0
            · have hx_eq : x = t0 := le_antisymm hx0 hax
              simp only [npInterp]
              rw [if_pos hx0, hx_eq, sub_self, mul_zero, zero_div, add_zero]
            · simp only [npInterp]
              rw [if_neg hx0, if_pos (le_of_lt hxb)]
  | succ k IH =>
    intro T R a b fa fb hpw hlen hTa hTb hRa hRb hax hxb
    cases T with
    | nil => simp at hTa
    | cons t0 T' =>
      cases R with
      | nil => simp at hlen
      | cons r0 R' =>
        rw [List.getElem?_cons_succ] at hTa hTb hRa hRb
        have hpw1 := List.pairwise_cons.mp hpw
        have hlen' : T'.length = R'.length := by simpa using hlen
        cases T' with
        | nil => simp at hTa
        | cons t1 T'' =>
          cases R' with
          | nil => simp at hlen'
          | cons r1 R'' =>
            have haT' : a ∈ t1 :: T'' := List.getElem?_mem hTa
            have ht0a : t0 < a := hpw1.1 a haT'
            by_cases hx0 : x ≤ t0
            · linarith
            · simp only [npInterp]
              rw [if_neg hx0]
              by_cases hx1 : x ≤ t1
              · cases k with
                | zero =>
                  rw [List.getElem?_cons_zero, Option.some.injEq] at hTa hRa
                  subst hTa hRa
                  have hx_eq : x = t1 := le_antisymm hx1 hax
                  have hne : t1 - t0 ≠ 0 := sub_ne_zero.mpr (ne_of_gt ht0a)
                  rw [if_pos hx1, hx_eq, sub_self, mul_zero, zero_div, add_zero,
                    mul_div_assoc, div_self hne, mul_one, add_sub_cancel]
                | succ k' =>
                  have haT'' : a ∈ T'' := by
                    rw [List.getElem?_cons_succ] at hTa
                    exact List.getElem?_mem hTa
                  have ht1a : t1 < a := (List.pairwise_cons.mp hpw1.2).1 a haT''
                  linarith
              · rw [if_neg hx1]
                exact IH (t1 :: T'') (r1 :: R'') a b fa fb hpw1.2 hlen' hTa hTb hRa hRb hax hxb

/-- C4: in schedule mode the per-slice radii are `np.interp` of each
slice's lead time (the `forecast_period` points converted to hours) over
the configured `(lead_time, radius)` schedule; `np.interp` is the
piecewise-linear interpolant of the schedule between consecutive
configured lead times and clamps to the boundary radius outside the
configured range; with lead times `[0, 6]` and radii `[10, 30]` it
yields 20 at lead time 3, 10 at −5 and 30 at 9. -/
theorem C4_lead_time_interpolation :
    (∀ (cfg : NBConfig) (lts : List ℚ) (c : Cube) (fp : TimeCoord) (radii : List ℚ),
      c.forecastPeriod = some fp → cfg.radiiInKm = Sum.inr radii →
      scheduleRadii cfg lts c =
        .ok ((convertToHours fp).points.map (fun t => npInterp t lts radii),
          { c with forecastPeriod := some (convertToHours fp) })) ∧
    npInterp 3 [0, 6] [10, 30] = 20 ∧
    npInterp (-5) [0, 6] [10, 30] = 10 ∧
    npInterp 9 [0, 6] [10, 30] = 30 ∧
    (∀ (x t0 r0 : ℚ) (ts rs : List ℚ), ts.length = rs.length → x ≤ t0 →
      npInterp x (t0 :: ts) (r0 :: rs) = r0) ∧
    (∀ (x : ℚ) (ts rs : List ℚ), ts.Pairwise (· < ·) → ts.length = rs.length →
      ts ≠ [] → (∀ t ∈ ts, t ≤ x) → npInterp x ts rs = rs.getLastD 0) ∧
    (∀ (x : ℚ) (k : ℕ) (T R : List ℚ) (a b fa fb : ℚ),
      T.Pairwise (· < ·) → T.length = R.length →
      T[k]? = some a → T[k + 1]? = some b → R[k]? = some fa → R[k + 1]? = some fb →
      a ≤ x → x < b →
      npInterp x T R = fa + (fb - fa) * (x - a) / (b - a)) := by
  refine ⟨?_, by norm_num [npInterp], by norm_num [npInterp], by norm_num [npInterp],
    fun x t0 r0 ts rs h1 h2 => npInterp_le_head x t0 r0 ts rs h1 h2,
    fun x ts rs h1 h2 h3 h4 => npInterp_ge_last x ts rs h1 h2 h3 h4,
    fun x k T R a b fa fb h1 h2 h3 h4 h5 h6 h7 h8 =>
      npInterp_segment x k T R a b fa fb h1 h2 h3 h4 h5 h6 h7 h8⟩
  intro cfg lts c fp radii hfp hradii
  unfold scheduleRadii findRequiredLeadTimes asListRadii
  rw [hfp, hradii]

/-! ### The data-validity gate of `process` -/

/-- Any message starting with the radius-error prefix differs from both
gate messages (their first characters differ). -/
theorem neigh_append_ne (s : String) :
    ("Neighbourhood processing radius of " ++ s) ≠ realizationsMsg ∧
    ("Neighbourhood processing radius of " ++ s) ≠ nanMsg := by
  have hhead : ("Neighbourhood processing radius of " ++ s).data.head? = some 'N' := by
    cases s with
    | mk d => rfl
  constructor <;> intro h <;> rw [h] at hhead
  · exact absurd hhead (by decide)
  · exact absurd hhead (by decide)

theorem getGridXYKernelRanges_error_ne_gate (c : Cube) (r : ℚ) (e : String)
    (he : getGridXYKernelRanges c r = .error e) :
    e ≠ realizationsMsg ∧ e ≠ nanMsg := by
  unfold getGridXYKernelRanges at he
  split at he
  · dsimp only at he
    split_ifs at he <;>
      rw [Except.error.injEq] at he <;> subst he
    · rw [zeroExtentMsg, String.append_assoc]
      exact neigh_append_ne _
    · rw [negativeExtentMsg, String.append_assoc]
      exact neigh_append_ne _
    · rw [exceedsMaxMsg, String.append_assoc]
      exact neigh_append_ne _
  · rw [Except.error.injEq] at he
    subst he
    exact ⟨by decide, by decide⟩

theorem smoothSlices_error (cfg : NBConfig) (c : Cube) (l : List (Frame × ℚ)) :
    ∀ e : String, smoothSlices cfg c l = .error e →
      ∃ r, getGridXYKernelRanges c r = .error e := by
  induction l with
  | nil => intro e he; exact Except.noConfusion he
  | cons hd tl IH =>
    intro e he
    unfold smoothSlices at he
    split at he
    · next e2 heq =>
      rw [Except.error.injEq] at he
      exact ⟨hd.2, he ▸ heq⟩
    · split at he
      · next e2 heq =>
        rw [Except.error.injEq] at he
        exact IH e (he ▸ heq)
      · exact Except.noConfusion he

theorem findRequiredLeadTimes_error_ne_gate (c : Cube) (e : String)
    (he : findRequiredLeadTimes c = .error e) :
    e ≠ realizationsMsg ∧ e ≠ nanMsg := by
  unfold findRequiredLeadTimes at he
  split at he
  · exact Except.noConfusion he
  · split at he
    · split at he
      · exact Except.noConfusion he
      · rw [Except.error.injEq] at he
        subst he
        exact ⟨by decide, by decide⟩
    · rw [Except.error.injEq] at he
      subst he
      rw [leadTimesNotFoundMsg]
      exact ⟨by decide, by decide⟩

theorem scheduleRadii_error_ne_gate (cfg : NBConfig) (lts : List ℚ) (c : Cube) (e : String)
    (he : scheduleRadii cfg lts c = .error e) :
    e ≠ realizationsMsg ∧ e ≠ nanMsg := by
  unfold scheduleRadii at he
  split at he
  · next e2 heq =>
    rw [Except.error.injEq] at he
    exact he ▸ findRequiredLeadTimes_error_ne_gate c e2 heq
  · split at he
    · next e2 heq =>
      rw [Except.error.injEq] at he
      subst he
      unfold asListRadii at heq
      split at heq
      · rw [Except.error.injEq] at heq
        subst heq
        exact ⟨by decide, by decide⟩
      · exact Except.noConfusion heq
    · exact Except.noConfusion he

theorem processAfterRealizationGate_error_ne_gate (cfg : NBConfig) (c : Cube) (e : String)
    (hnan : hasNaN c = false)
    (he : processAfterRealizationGate cfg c = .error e) :
    e ≠ realizationsMsg ∧ e ≠ nanMsg := by
  unfold processAfterRealizationGate at he
  rw [hnan] at he
  simp only [Bool.false_eq_true, if_false] at he
  split at he
  · -- constant-radius mode
    split at he
    · next e2 heq =>
      rw [Except.error.injEq] at he
      subst he
      unfold asFloatRadius at heq
      split at heq
      · exact Except.noConfusion heq
      · rw [Except.error.injEq] at heq
        subst heq
        exact ⟨by decide, by decide⟩
    · split at he
      · next e2 heq =>
        rw [Except.error.injEq] at he
        exact he ▸ getGridXYKernelRanges_error_ne_gate c _ e2 heq
      · exact Except.noConfusion he
  · -- schedule mode
    split at he
    · next e2 heq =>
      rw [Except.error.injEq] at he
      exact he ▸ scheduleRadii_error_ne_gate cfg _ c e2 heq
    · split at he
      · next e2 heq =>
        rw [Except.error.injEq] at he
        obtain ⟨r, hr⟩ := smoothSlices_error cfg _ _ e2 heq
        exact he ▸ getGridXYKernelRanges_error_ne_gate _ r e2 hr
      · exact Except.noConfusion he

/-- The flat cube with a single (length-1) realization coordinate. -/
def flatCubeR : Cube := { flatCube with realizationPoints := some [0] }

/-- The flat cube with a length-2 realization coordinate. -/
def realizCube : Cube := { flatCube with realizationPoints := some [0, 1] }

/-- The flat cube with one NaN cell. -/
def nanCube : Cube := { flatCube with frames := [[[none]]] }

theorem ranges_flatCubeR : getGridXYKernelRanges flatCubeR 1 = .ok (1, 1) := by
  norm_num [getGridXYKernelRanges, flatCubeR, flatCube, pyInt, MAX_KERNEL_CELL_RADIUS]

theorem process_flatCubeR : process ⟨Sum.inl 1, none, true⟩ flatCubeR = .ok flatCubeR := by
  have h2 : process ⟨Sum.inl 1, none, true⟩ flatCubeR
      = (match getGridXYKernelRanges flatCubeR 1 with
        | .error e => .error e
        | .ok ranges =>
          Except.ok { flatCubeR with frames := [applyKernelFrame ranges.1.toNat ranges.2.toNat
            true (List.replicate 5 (List.replicate 5 (some (1 : ℚ))))] }) := rfl
  rw [h2, ranges_flatCubeR]
  show Except.ok { flatCubeR with frames := [applyKernelFrame 1 1 true
    (List.replicate 5 (List.replicate 5 (some (1 : ℚ))))] } = Except.ok flatCubeR
  rw [applyKernelFrame_const 1 1 true 5 5 1 (by decide) (by decide) (by decide) (by decide)]
  rfl

/-- C8: `process` returns one of the two data-validity errors exactly when
the input has a NaN cell or carries a realization coordinate with more
than one point — whatever the configured radius, so the gate fires before
any radius resolution or kernel work; a cube with a length-1 realization
coordinate (or none) and no NaN passes the gate: concretely, the length-2
realization cube and the NaN cube are rejected while the length-1
realization flat cube is smoothed normally. -/
theorem C8_data_validity_gate :
    (∀ (cfg : NBConfig) (c : Cube),
      (process cfg c = .error realizationsMsg ∨ process cfg c = .error nanMsg) ↔
        (hasNaN c = true ∨ ∃ pts, c.realizationPoints = some pts ∧ 1 < pts.length)) ∧
    (∀ cfg : NBConfig, process cfg realizCube = .error realizationsMsg) ∧
    (∀ cfg : NBConfig, process cfg nanCube = .error nanMsg) ∧
    process ⟨Sum.inl 1, none, true⟩ flatCubeR = .ok flatCubeR := by
  refine ⟨?_, fun cfg => rfl, fun cfg => rfl, process_flatCubeR⟩
  intro cfg c
  constructor
  · intro h
    by_contra hcon
    push_neg at hcon
    obtain ⟨hnan, hreal⟩ := hcon
    have hnan' : hasNaN c = false := by
      rw [← Bool.not_eq_true]
      exact hnan
    have hpass : process cfg c = processAfterRealizationGate cfg c := by
      unfold process
      cases hrp : c.realizationPoints with
      | none => rfl
      | some pts =>
        dsimp only
        rw [if_neg]
        rw [not_lt]
        exact hreal pts hrp
    rw [hpass] at h
    rcases h with h | h
    · exact (processAfterRealizationGate_error_ne_gate cfg c _ hnan' h).1 rfl
    · exact (processAfterRealizationGate_error_ne_gate cfg c _ hnan' h).2 rfl
  · intro h
    rcases h with hnan | ⟨pts, hrp, hlen⟩
    · cases hrp : c.realizationPoints with
      | some pts =>
        by_cases hlen : 1 < pts.length
        · left
          unfold process
          rw [hrp]
          dsimp only
          exact if_pos hlen
        · right
          unfold process
          rw [hrp]
          dsimp only
          rw [if_neg hlen]
          unfold processAfterRealizationGate
          rw [hnan]
          rfl
      | none =>
        right
        unfold process
        rw [hrp]
        unfold processAfterRealizationGate
        rw [hnan]
        rfl
    · left
      unfold process
      rw [hrp]
      dsimp only
      exact if_pos hlen

/-! ### Frame condition and constructor -/

/-- C10: constructing with a float `radii_in_km` and a lead-time list
always raises the `TypeError` from `len()` on a float — never the
documented length-mismatch `ValueError` — so every successfully
constructed instance that has a lead-time schedule stores a list of radii
whose length equals the schedule's. -/
theorem C10_constructor_float_radii :
    (∀ (r : ℚ) (lts : List ℚ) (uw : Bool),
      nbInit (Sum.inl r) (some lts) uw =
        .error (.typeError "object of type float has no len()")) ∧
    (∀ (r : ℚ) (lts : List ℚ) (uw : Bool) (e : PyErr),
      nbInit (Sum.inl r) (some lts) uw = .error e → e ≠ .valueError lengthMismatchMsg) ∧
    (∀ (radii : Sum ℚ (List ℚ)) (leadTimes : Option (List ℚ)) (uw : Bool)
      (cfg : NBConfig) (lts : List ℚ),
      nbInit radii leadTimes uw = .ok cfg → cfg.leadTimes = some lts →
      ∃ l, cfg.radiiInKm = Sum.inr l ∧ l.length = lts.length) := by
  refine ⟨fun r lts uw => rfl, ?_, ?_⟩
  · intro r lts uw e he
    have h1 : nbInit (Sum.inl r) (some lts) uw =
        .error (.typeError "object of type float has no len()") := rfl
    rw [h1, Except.error.injEq] at he
    subst he
    intro hc
    exact PyErr.noConfusion hc
  · intro radii leadTimes uw cfg lts hok hlt
    cases leadTimes with
    | none =>
      have hcfg : cfg = ⟨radii, none, uw⟩ := by
        rw [show nbInit radii none uw = .ok ⟨radii, none, uw⟩ from rfl,
          Except.ok.injEq] at hok
        exact hok.symm
      rw [hcfg] at hlt
      exact Option.noConfusion hlt
    | some lts0 =>
      cases radii with
      | inl r => exact Except.noConfusion hok
      | inr l =>
        have h' : (if l.length ≠ lts0.length then
            (.error (.valueError lengthMismatchMsg) : Except PyErr NBConfig)
          else .ok ⟨Sum.inr l, some lts0, uw⟩) = .ok cfg := hok
        split_ifs at h' with hne
        rw [Except.ok.injEq] at h'
        rw [← h'] at hlt
        rw [show (⟨Sum.inr l, some lts0, uw⟩ : NBConfig).leadTimes = some lts0 from rfl,
          Option.some.injEq] at hlt
        subst hlt
        rw [← h']
        exact ⟨l, rfl, not_ne_iff.mp hne⟩

end Improver
